import Mathlib

/-
  Verification development for the chickenjdk/byteutils repository.

  The definitions below are shallow embeddings of the TypeScript sources:
  - class LockQueue                         (src/src/writableBuffer.ts)
  - class SimpleEventEmitter                (src/src/writableBuffer.ts)
  - class readableStream                    (src/src/stream/writableStream.ts,
                                             the variant built on LockQueue and
                                             SimpleEventEmitter)
  - class readableBuffer / readableBufferBase (src/src/readableBuffer.ts)
  - class writableBuffer / writableBufferBase (src/src/writableBuffer.ts)
  - class writableBufferFixedSize           (src/src/writableBuffer.ts)

  Bytes are modelled as Nat, Uint8Array as List Nat, and JavaScript 32-bit
  integer coercions are made explicit with % 2 ^ 32 and with shift counts
  reduced modulo 32, exactly where the source relies on them.
-/

namespace ByteUtils

/- ===================== LockQueue ===================== -/

/-- Result of a call to LockQueue.acquire, seen from the caller:
the returned promise is already rejected, already resolved, or pending with
the resolve and reject callbacks appended to the internal queue. -/
inductive AcquireResult where
  | rejected
  | resolved
  | enqueued
deriving DecidableEq, Repr

/-- State of class LockQueue from src/src/writableBuffer.ts.  The queued
callbacks are identified by the numeric id of the waiting caller. -/
structure LockQueue where
  queue : List Nat
  locked : Bool
  closed : Bool
deriving DecidableEq, Repr

/-- Mirror of LockQueue.acquire.  The source checks closed, then checks
locked, and otherwise pushes the promise callbacks onto the queue.  Note
that the source never assigns true to the locked flag in this method. -/
def LockQueue.acquire (lq : LockQueue) (waiter : Nat) : AcquireResult × LockQueue :=
  if lq.closed then
    (.rejected, lq)
  else if !lq.locked then
    (.resolved, lq)
  else
    (.enqueued, { lq with queue := lq.queue ++ [waiter] })

/-- Mirror of LockQueue.release: clears the locked flag, then shifts the
first queued waiter, if any, and resolves it. -/
def LockQueue.release (lq : LockQueue) : Option Nat × LockQueue :=
  let lq2 : LockQueue := { lq with locked := false }
  match lq2.queue with
  | [] => (none, lq2)
  | w :: rest => (some w, { lq2 with queue := rest })

/- ===================== readableStream, sequential semantics =====================

   The streaming reader methods shift and readUint8Array are async.  When a
   single caller awaits each call to completion before issuing the next one,
   the microtask machinery is invisible and every call is an atomic state
   transformation.  The definitions below give that sequential semantics as
   pure functions, translated line by line from readableStream in
   src/src/stream/writableStream.ts.  A call that registers an
   events.once data listener and never gets another chunk is reported as
   park; a call that throws StreamEndedError is reported as ended. -/

/-- State of a readableStream instance: the private fields chunkQueue,
chunkIdx and destroyed. -/
structure readableStream where
  chunkQueue : List (List Nat)
  chunkIdx : Nat
  destroyed : Bool
deriving DecidableEq, Repr

/-- Outcome of an awaited async read: the resolved value with the updated
stream state, a promise still pending because no data listener ever fired,
or a rejection with StreamEndedError. -/
inductive AsyncRes (α : Type) where
  | success (value : α) (st : readableStream)
  | park
  | ended
deriving DecidableEq, Repr

/-- The head-chunk eviction prologue of readableStream#waitChunk: if the
cursor has reached the end of the head chunk, the head chunk is shifted off
and the cursor reset to zero. -/
def evictHead : List (List Nat) → Nat → List (List Nat) × Nat
  | [], idx => ([], idx)
  | c :: rest, idx => if c.length ≤ idx then (rest, 0) else (c :: rest, idx)

/-- One loop iteration of readableStream.readUint8Array per recursive call:
the bytesLeft check of the while loop, then the body of #waitChunk (evict a
consumed head chunk; if the queue is empty, either throw StreamEndedError
when destroyed or park on events.once data), then the consume step on the
head chunk.  The branch that consumes the whole head chunk shifts the queue
but, exactly as in the source, does not reset the cursor.  The fuel
argument only bounds the recursion; the wrapper passes one more than the
queue length, and every recursive call shortens the queue, so the zero-fuel
branch is unreachable from the wrapper. -/
def readUint8ArrayLoop : Nat → Bool → List (List Nat) → Nat → Nat → List Nat →
    AsyncRes (List Nat)
  | 0, _, _, _, _, _ => .park
  | fuel + 1, destroyed, queue, idx, bytesLeft, acc =>
    if bytesLeft = 0 then
      .success acc ⟨queue, idx, destroyed⟩
    else
      match evictHead queue idx with
      | ([], _) => if destroyed then .ended else .park
      | (c :: rest, idx2) =>
        if c.length - idx2 > bytesLeft then
          .success (acc ++ (c.drop idx2).take bytesLeft) ⟨c :: rest, idx2 + bytesLeft, destroyed⟩
        else
          readUint8ArrayLoop fuel destroyed rest idx2
            (bytesLeft - (c.length - idx2)) (acc ++ c.drop idx2)

/-- readableStream.readUint8Array for a sequential caller.  The lock
acquisition at the top of the method resolves immediately for a sole caller
and is therefore invisible here. -/
def readableStream.readUint8Array (st : readableStream) (bytes : Nat) :
    AsyncRes (List Nat) :=
  readUint8ArrayLoop (st.chunkQueue.length + 1) st.destroyed st.chunkQueue st.chunkIdx bytes []

/-- readableStream.readUint8ArrayBackwards: awaits readUint8Array and
reverses the resolved value. -/
def readableStream.readUint8ArrayBackwards (st : readableStream) (bytes : Nat) :
    AsyncRes (List Nat) :=
  match st.readUint8Array bytes with
  | .success b st2 => .success b.reverse st2
  | .park => .park
  | .ended => .ended

/-- readableStream.shift for a sequential caller: #waitChunk, then read the
byte under the cursor and advance the cursor.  The head chunk delivered by
a Node data event is never empty, so the byte under the cursor exists; the
default 0 of getD is never used then. -/
def readableStream.shift (st : readableStream) : AsyncRes Nat :=
  match evictHead st.chunkQueue st.chunkIdx with
  | ([], _) => if st.destroyed then .ended else .park
  | (c :: rest, idx2) => .success (c.getD idx2 0) ⟨c :: rest, idx2 + 1, st.destroyed⟩

/-- The bytes still buffered but not yet consumed in a queue with cursor:
the unread suffix of the head chunk plus all later chunks. -/
def remainingOf (queue : List (List Nat)) (idx : Nat) : Nat :=
  match queue with
  | [] => 0
  | c :: rest => (c.length - min idx c.length) + (rest.map List.length).sum

/-- The bytes still buffered but not yet consumed by a readableStream. -/
def bufferedRemaining (st : readableStream) : Nat :=
  remainingOf st.chunkQueue st.chunkIdx

/- ===================== readableStream, interleaved semantics =====================

   When several calls to readUint8Array overlap, the JavaScript microtask
   queue interleaves their execution.  The model below makes that queue
   explicit.  Each await on a promise that is already resolved reschedules
   the continuation at the tail of the microtask FIFO; a waitChunk call that
   finds the queue empty parks its continuation on events.once data (and
   events.once close).  Both in-flight calls run identical await machinery,
   so the single-round-trip-per-await abstraction preserves the relative
   order of their continuations.  Tasks are numbered in issue order and the
   listener lists store task numbers in subscription order, matching the
   snapshot-then-call-in-order behaviour of SimpleEventEmitter.emit. -/

/-- Why an in-flight call rejected: the StreamEndedError thrown or injected
by waitChunk, or the TypeError raised when the consume step dereferences
chunkQueue[0] on an empty queue. -/
inductive RSError where
  | streamEnded
  | typeErr
deriving DecidableEq, Repr

/-- The continuation of an in-flight readUint8Array call: about to start
the while loop after the lock acquisition resolved, about to run one loop
body after waitChunk resolved, resolved with its bytes, or rejected.
bytesLeft is an Int because the source manipulates it with JavaScript
number arithmetic. -/
inductive Phase where
  | afterAcquire (bytes : Int)
  | consume (acc : List Nat) (bytesLeft : Int)
  | done (res : List Nat)
  | failed (e : RSError)
deriving DecidableEq, Repr

/-- Whole-system state for interleaved calls: the readableStream fields,
its LockQueue, the once-data listener list, the drain listener lists of the
events emitter together with a log of drain notifications delivered, the
microtask FIFO of runnable task ids, and the phase of every task. -/
structure Sched where
  chunkQueue : List (List Nat)
  chunkIdx : Nat
  lock : LockQueue
  destroyed : Bool
  drained : Bool
  dataWaiters : List Nat
  drainOn : List Nat
  drainOnce : List Nat
  firedDrain : List Nat
  micro : List Nat
  tasks : List Phase
deriving DecidableEq, Repr

/-- readableStream.onDrain: registers a persistent listener through
events.on with the drain name. -/
def Sched.onDrain (s : Sched) (listener : Nat) : Sched :=
  { s with drainOn := s.drainOn ++ [listener] }

/-- readableStream.onceDrain: registers a one-shot listener through
events.once with the drain name. -/
def Sched.onceDrain (s : Sched) (listener : Nat) : Sched :=
  { s with drainOnce := s.drainOnce ++ [listener] }

/-- Issuing readUint8Array(bytes): the synchronous prefix of the call runs
up to the await on lock.acquire().  A resolved acquire schedules the
continuation on the microtask FIFO; an enqueued acquire leaves the task
parked inside the lock queue; a rejected acquire rejects the call. -/
def Sched.issueRead (s : Sched) (bytes : Nat) : Sched :=
  let tid := s.tasks.length
  match s.lock.acquire tid with
  | (.resolved, lock2) =>
    { s with lock := lock2, micro := s.micro ++ [tid],
             tasks := s.tasks ++ [.afterAcquire bytes] }
  | (.enqueued, lock2) =>
    { s with lock := lock2, tasks := s.tasks ++ [.afterAcquire bytes] }
  | (.rejected, lock2) =>
    { s with lock := lock2, tasks := s.tasks ++ [.failed .streamEnded] }

/-- The while-loop head of readUint8Array followed by the synchronous body
of the awaited waitChunk call.  bytesLeft = 0 exits the loop: the lock is
released, which resolves the next queued acquirer if any, and the call
resolves with its accumulated bytes.  Otherwise waitChunk evicts a consumed
head chunk and either throws StreamEndedError, parks the task on
events.once data, or resolves at once, rescheduling the task at the tail of
the microtask FIFO. -/
def Sched.loopStep (s : Sched) (tid : Nat) (acc : List Nat) (bytesLeft : Int) : Sched :=
  if bytesLeft = 0 then
    let (woken, lock2) := s.lock.release
    let s2 := { s with lock := lock2, tasks := s.tasks.set tid (.done acc) }
    match woken with
    | some w => { s2 with micro := s2.micro ++ [w] }
    | none => s2
  else
    let (q, idx) := evictHead s.chunkQueue s.chunkIdx
    let s2 := { s with chunkQueue := q, chunkIdx := idx }
    if q.isEmpty then
      if s2.destroyed then
        { s2 with tasks := s2.tasks.set tid (.failed .streamEnded) }
      else
        { s2 with dataWaiters := s2.dataWaiters ++ [tid],
                  tasks := s2.tasks.set tid (.consume acc bytesLeft) }
    else
      { s2 with micro := s2.micro ++ [tid],
                tasks := s2.tasks.set tid (.consume acc bytesLeft) }

/-- Run the continuation of task tid once it is popped off the microtask
FIFO.  A consume phase performs one body of the while loop on the shared
state: chunkQueue[0] is undefined on an empty queue, so the member access
on it raises a TypeError; otherwise the branch on
chunk.length - chunkIdx > bytesLeft consumes part of the head chunk and
finishes, or consumes the whole head remainder, shifts the queue without
resetting the cursor, and loops. -/
def Sched.runTask (s : Sched) (tid : Nat) : Sched :=
  match s.tasks.getD tid (.failed .typeErr) with
  | .afterAcquire bytes => s.loopStep tid [] bytes
  | .consume acc bytesLeft =>
    match s.chunkQueue with
    | [] => { s with tasks := s.tasks.set tid (.failed .typeErr) }
    | c :: rest =>
      if (c.length : Int) - (s.chunkIdx : Int) > bytesLeft then
        let taken := (c.drop s.chunkIdx).take bytesLeft.toNat
        let s2 := { s with chunkIdx := s.chunkIdx + bytesLeft.toNat }
        s2.loopStep tid (acc ++ taken) 0
      else
        let taken := c.drop s.chunkIdx
        let s2 := { s with chunkQueue := rest }
        s2.loopStep tid (acc ++ taken) (bytesLeft - ((c.length : Int) - (s.chunkIdx : Int)))
  | .done _ => s
  | .failed _ => s

/-- Drain the microtask FIFO: repeatedly pop the head task and run its
continuation, until the FIFO is empty or the fuel runs out.  The concrete
runs below use ample fuel and are checked to quiesce. -/
def Sched.runMicro : Nat → Sched → Sched
  | 0, s => s
  | fuel + 1, s =>
    match s.micro with
    | [] => s
    | tid :: rest => Sched.runMicro fuel (Sched.runTask { s with micro := rest } tid)

/-- The data handler installed by the readableStream constructor: push the
chunk, clear the drained flag, and emit the data event.  emit snapshots the
once listeners, removes them, and calls each resolve in subscription order,
so every parked waitChunk continuation is scheduled, in order, at the tail
of the microtask FIFO. -/
def Sched.pushChunk (s : Sched) (c : List Nat) : Sched :=
  { s with chunkQueue := s.chunkQueue ++ [c], drained := false,
           micro := s.micro ++ s.dataWaiters, dataWaiters := [] }

/-- The close handler installed by the readableStream constructor: set
destroyed and emit the close event.  Every parked waitChunk promise has a
once-close listener that rejects it with StreamEndedError, so emit rejects
every parked task. -/
def Sched.closeEvt (s : Sched) : Sched :=
  { s with destroyed := true,
           tasks := s.dataWaiters.foldl (fun ts w => ts.set w (.failed .streamEnded)) s.tasks,
           dataWaiters := [] }

/- ===================== writableBufferFixedSize ===================== -/

/-- The OutOfCapacity error family: writableBufferFixedSize throws
Error("Buffer does not have capacity to write the data"). -/
inductive WriteFail where
  | outOfCapacity
deriving DecidableEq, Repr

/-- State of class writableBufferFixedSize: the capacity of the backing
Uint8Array and the written prefix buffer.subarray(0, used).  data.length
plays the role of the used counter. -/
structure writableBufferFixedSize where
  maxLength : Nat
  data : List Nat
deriving DecidableEq, Repr

/-- writableBufferFixedSize.push: throws before touching the buffer when
used equals the capacity, otherwise stores one byte.  The second component
records the thrown error, the first the object state afterwards. -/
def writableBufferFixedSize.push (st : writableBufferFixedSize) (value : Nat) :
    writableBufferFixedSize × Option WriteFail :=
  if st.data.length = st.maxLength then
    (st, some .outOfCapacity)
  else
    ({ st with data := st.data ++ [value] }, none)

/-- writableBufferFixedSize.writeUint8Array: throws before touching the
buffer when used + value.length exceeds the capacity, otherwise copies the
bytes at offset used. -/
def writableBufferFixedSize.writeUint8Array (st : writableBufferFixedSize)
    (value : List Nat) : writableBufferFixedSize × Option WriteFail :=
  if st.maxLength < st.data.length + value.length then
    (st, some .outOfCapacity)
  else
    ({ st with data := st.data ++ value }, none)

/-- writableBufferFixedSize.writeArray: identical guard and copy as
writeUint8Array, taking a plain number array. -/
def writableBufferFixedSize.writeArray (st : writableBufferFixedSize)
    (value : List Nat) : writableBufferFixedSize × Option WriteFail :=
  if st.maxLength < st.data.length + value.length then
    (st, some .outOfCapacity)
  else
    ({ st with data := st.data ++ value }, none)

/- ===================== writableBuffer (growable) ===================== -/

/-- State of class writableBuffer: the chunk size and the list of backing
chunks with the most recent first, as produced by unshift.  Each entry
holds the bytes written into that chunk, so the head entry is
buffers[0].subarray(0, used) and every other entry is a full chunk. -/
structure writableBuffer where
  chunkSize : Nat
  buffers : List (List Nat)
deriving DecidableEq, Repr

/-- A freshly constructed writableBuffer: one untouched chunk, used = 0. -/
def writableBuffer.empty (chunkSize : Nat) : writableBuffer :=
  ⟨chunkSize, [[]]⟩

/-- The while loop of writableBuffer.writeArray: when the head chunk is
full, unshift a fresh chunk; then copy
min(bytesLeft, chunkSize - used) bytes and continue.  The fuel only bounds
the recursion: the wrapper passes value.length + 1, and whenever
chunkSize > 0 every iteration copies at least one byte, so the zero-fuel
branch is unreachable then.  With chunkSize = 0 the source loop never
terminates. -/
def writeArrayLoop (chunkSize : Nat) : Nat → List (List Nat) → List Nat → List (List Nat)
  | 0, buffers, _ => buffers
  | fuel + 1, buffers, value =>
    if value.length = 0 then
      buffers
    else
      let buffers2 := if (buffers.headD []).length = chunkSize then [] :: buffers else buffers
      let used := (buffers2.headD []).length
      let bytesToWrite := min value.length (chunkSize - used)
      writeArrayLoop chunkSize fuel
        (((buffers2.headD []) ++ value.take bytesToWrite) :: buffers2.tail)
        (value.drop bytesToWrite)

/-- writableBuffer.writeArray. -/
def writableBuffer.writeArray (wb : writableBuffer) (value : List Nat) : writableBuffer :=
  ⟨wb.chunkSize, writeArrayLoop wb.chunkSize (value.length + 1) wb.buffers value⟩

/-- writableBuffer.writeArrayBackwards: writeArray on a reversed copy. -/
def writableBuffer.writeArrayBackwards (wb : writableBuffer) (value : List Nat) :
    writableBuffer :=
  wb.writeArray value.reverse

/-- The buffer getter of writableBuffer: joins buffers.slice(1) in stored
order followed by the used prefix of buffers[0]. -/
def writableBuffer.buffer (wb : writableBuffer) : List Nat :=
  (wb.buffers.drop 1).flatten ++ wb.buffers.headD []

/- ===================== integer codecs ===================== -/

/-- The digit loop of writableBufferBase.writeUnsignedInt: grabs the lowest
byte first with (mask & value) >>> i, then shifts the mask left by 8.  The
mask lives in a 32-bit register, hence the % 2 ^ 32, and JavaScript reduces
shift counts modulo 32.  The count argument is the number of loop
iterations, bytes in the source. -/
def writeUnsignedIntLoop (value : Nat) : Nat → Nat → Nat → List Nat
  | 0, _, _ => []
  | count + 1, mask, i =>
    ((mask &&& value) >>> (i % 32)) ::
      writeUnsignedIntLoop value count ((mask <<< 8) % 2 ^ 32) (i + 8)

/-- writableBufferBase.writeUnsignedInt on a writableBuffer: build the
little-endian digit list with mask = 0xFF and i = 0, then hand it to
writeArrayBackwardsEndian, which the isLe setter binds to writeArray when
little endian and to writeArrayBackwards when big endian. -/
def writableBuffer.writeUnsignedInt (isLe : Bool) (wb : writableBuffer)
    (value bytes : Nat) : writableBuffer :=
  let out := writeUnsignedIntLoop value bytes 255 0
  if isLe then wb.writeArray out else wb.writeArrayBackwards out

/-- The decode fold of readableBufferBase.readUnsignedInt: iterate over the
reversed read bytes with output |= byte << (index++ * 8).  The |= works on
32-bit operands; shift counts reduce modulo 32. -/
def readUnsignedIntFold : List Nat → Nat → Nat → Nat
  | [], _, output => output
  | b :: rest, index, output =>
    readUnsignedIntFold rest (index + 1) (output ||| (b <<< ((index * 8) % 32)))

/-- readableBufferBase.readUnsignedInt applied to bytes already read:
reverse them, fold, and force unsigned with >>> 0. -/
def decodeUnsignedInt (read : List Nat) : Nat :=
  readUnsignedIntFold read.reverse 0 0 % 2 ^ 32

/-- The sign handling of readableBufferBase.readSignedInteger applied to
the value produced by readUnsignedInt: mask out the sign bit of the
bytes * 8 wide word and negate the remaining magnitude when it was set. -/
def decodeSignedInteger (bytes read : Nat) : Int :=
  let bits := bytes * 8
  let sign := read &&& (1 <<< ((bits - 1) % 32))
  if sign = 0 then (read ^^^ sign : Nat) else -((read ^^^ sign : Nat) : Int)

/-- readableBufferBase.readUnsignedInt issued on a readableStream with
big-endian semantics: readEndian is bound to read, which is
readUint8Array, and the bytes are decoded by the fold above. -/
def readableStream.readUnsignedInt (st : readableStream) (bytes : Nat) : AsyncRes Nat :=
  match st.readUint8Array bytes with
  | .success b st2 => .success (decodeUnsignedInt b) st2
  | .park => .park
  | .ended => .ended

/-- readableBufferBase.readSignedInteger issued on a readableStream with
big-endian semantics: readUnsignedInt, then the sign-magnitude decode. -/
def readableStream.readSignedInteger (st : readableStream) (bytes : Nat) : AsyncRes Int :=
  match st.readUnsignedInt bytes with
  | .success v st2 => .success (decodeSignedInteger bytes v) st2
  | .park => .park
  | .ended => .ended

/- ===================== readableBuffer ===================== -/

/-- The RangeError("readableBuffer out of bounds") thrown by the in-memory
reader. -/
inductive BufFail where
  | outOfBounds
deriving DecidableEq, Repr

/-- State of class readableBuffer: the backing bytes, the cursor, and the
isLe flag of readableBufferBase.  The isLe setter of the source swaps
bound method references; following the explicit-dispatch reading of that
pattern, the flag is consulted at each endian-sensitive call. -/
structure readableBuffer where
  buffer : List Nat
  index : Nat
  isLe : Bool
deriving DecidableEq, Repr

/-- readableBuffer.readUint8Array: bounds check, then
buffer.subarray(index, index + bytes) and cursor advance. -/
def readableBuffer.readUint8Array (rb : readableBuffer) (bytes : Nat) :
    Except BufFail (List Nat × readableBuffer) :=
  if rb.buffer.length < rb.index + bytes then
    .error .outOfBounds
  else
    .ok ((rb.buffer.drop rb.index).take bytes, { rb with index := rb.index + bytes })

/-- readableBuffer.readUint8ArrayBackwards: readUint8Array, reversed. -/
def readableBuffer.readUint8ArrayBackwards (rb : readableBuffer) (bytes : Nat) :
    Except BufFail (List Nat × readableBuffer) :=
  (rb.readUint8Array bytes).map fun p => (p.1.reverse, p.2)

/-- readableBufferBase.readEndian on a readableBuffer: the isLe setter
binds it to readUint8ArrayBackwards when little endian and to read, that
is readUint8Array, when big endian. -/
def readableBuffer.readEndian (rb : readableBuffer) (bytes : Nat) :
    Except BufFail (List Nat × readableBuffer) :=
  if rb.isLe then rb.readUint8ArrayBackwards bytes else rb.readUint8Array bytes

/-- readableBufferBase.readUnsignedInt on a readableBuffer. -/
def readableBuffer.readUnsignedInt (rb : readableBuffer) (bytes : Nat) :
    Except BufFail (Nat × readableBuffer) :=
  (rb.readEndian bytes).map fun p => (decodeUnsignedInt p.1, p.2)

/- ===================== helper lemmas ===================== -/

/-- Setting every index of a list to one value with a left fold sets every
listed position to that value, and positions already holding the value
keep it. -/
theorem getElem?_foldl_set {α : Type} (v : α) :
    ∀ (l : List Nat) (ts : List α) (w : Nat),
      (w ∈ l ∨ ts[w]? = some v) → w < ts.length →
      (l.foldl (fun a i => a.set i v) ts)[w]? = some v := by
  intro l
  induction l with
  | nil =>
    intro ts w h _
    rcases h with h | h
    · cases h
    · simpa using h
  | cons a l ih =>
    intro ts w h hw
    simp only [List.foldl_cons]
    apply ih
    · by_cases hwa : w = a
      · subst hwa
        right
        rw [List.getElem?_set_self hw]
      · rcases h with h | h
        · rcases List.mem_cons.mp h with h | h
          · exact absurd h hwa
          · exact Or.inl h
        · right
          rw [List.getElem?_set_ne (by omega)]
          exact h
    · simpa using hw

/-- remainingOf is at most the total number of queued bytes. -/
theorem remainingOf_le_sum (queue : List (List Nat)) (idx : Nat) :
    remainingOf queue idx ≤ (queue.map List.length).sum := by
  cases queue with
  | nil => simp [remainingOf]
  | cons c rest =>
    simp only [remainingOf, List.map_cons, List.sum_cons]
    omega

/-- On a destroyed stream, the read loop rejects with StreamEndedError as
soon as the requested count exceeds the bytes it could still deliver. -/
theorem readLoop_ended (fuel : Nat) :
    ∀ (queue : List (List Nat)) (idx bytesLeft : Nat) (acc : List Nat),
      queue.length < fuel → remainingOf queue idx < bytesLeft →
      readUint8ArrayLoop fuel true queue idx bytesLeft acc = .ended := by
  induction fuel with
  | zero =>
    intro queue _ _ _ h _
    omega
  | succ fuel ih =>
    intro queue idx bl acc hlen hrem
    have hbl : ¬bl = 0 := by omega
    simp only [readUint8ArrayLoop, if_neg hbl]
    cases queue with
    | nil => simp [evictHead]
    | cons c rest =>
      by_cases hev : c.length ≤ idx
      · simp only [evictHead, if_pos hev]
        have hmin : min idx c.length = c.length := by omega
        rw [remainingOf, hmin] at hrem
        cases rest with
        | nil => simp
        | cons d rest2 =>
          simp only [List.map_cons, List.sum_cons] at hrem
          have hgt : ¬(d.length - 0 > bl) := by omega
          simp only [if_neg hgt]
          apply ih
          · simp at hlen ⊢; omega
          · have := remainingOf_le_sum rest2 0
            omega
      · simp only [evictHead, if_neg hev]
        have hmin : min idx c.length = idx := by omega
        rw [remainingOf, hmin] at hrem
        have hgt : ¬(c.length - idx > bl) := by omega
        simp only [if_neg hgt]
        apply ih
        · simp at hlen ⊢; omega
        · have := remainingOf_le_sum rest idx
          omega

/- ===================== claim theorems ===================== -/

/-- C1: the claim says that reads whose sizes add up to the total enqueued
length return exactly the enqueued bytes in order.  On the code this fails:
with chunks [1,2] and [3] enqueued (total length 3), readUint8Array(1)
returns [1], but the following readUint8Array(2) parks forever instead of
returning [2, 3].  Its whole-chunk branch consumes [2], shifts the queue
without resetting the cursor, and the next waitChunk then evicts the still
unread chunk [3] because the stale cursor 1 has reached its length. -/
theorem c1_concatenation_lost :
    readableStream.readUint8Array ⟨[[1, 2], [3]], 0, false⟩ 1 =
      .success [1] ⟨[[1, 2], [3]], 1, false⟩ ∧
    readableStream.readUint8Array ⟨[[1, 2], [3]], 1, false⟩ 2 = .park := by
  decide

/-- C2: the claim says that after one acquire() resolves and before its
release(), every further acquire() suspends in the FIFO queue.  On the code
a second acquire() of a fresh LockQueue with no intervening release()
resolves immediately as well, because acquire never sets the locked flag,
so the flag is still false. -/
theorem c2_second_acquire_resolves :
    (LockQueue.acquire ⟨[], false, false⟩ 0).1 = .resolved ∧
    ((LockQueue.acquire ⟨[], false, false⟩ 0).2).locked = false ∧
    (LockQueue.acquire (LockQueue.acquire ⟨[], false, false⟩ 0).2 1).1 = .resolved ∧
    (LockQueue.acquire (LockQueue.acquire ⟨[], false, false⟩ 0).2 1).2.queue = [] := by
  decide

/-- C3: the claim says a second overlapping read never receives bytes of
the first request.  On the code, with chunks [1], [2], [3] buffered,
issuing A = readUint8Array(3) and then B = readUint8Array(1) and later
delivering [4] ends with A resolved to [1, 3, 4] and B resolved to [2]:
the broken lock lets B in during the assembly of A, and B takes
byte 2, which belongs to the first three bytes of the stream and hence to
A.  The claim demands A = [1, 2, 3] and B = [4]. -/
theorem c3_interleaved_read_steals_byte :
    (Sched.runMicro 32 (Sched.pushChunk (Sched.runMicro 32
        (Sched.issueRead (Sched.issueRead
          ⟨[[1], [2], [3]], 0, ⟨[], false, false⟩, false, false, [], [], [], [], [], []⟩
          3) 1)) [4])).tasks =
      [.done [1, 3, 4], .done [2]] ∧
    Phase.done [1, 3, 4] ≠ Phase.done [1, 2, 3] := by
  decide

/-- C4: the claim says that after the source closed, readUint8Array(n)
succeeds whenever n is at most the remaining buffered bytes.  On the code,
with the source closed and chunks [1,2], [3] buffered, readUint8Array(1)
returns [1], leaving 2 buffered bytes, but readUint8Array(2) rejects with
StreamEndedError: the missing cursor reset makes waitChunk evict the
unread chunk [3], so the second half of the claim fires on a read that the
first half promises to satisfy. -/
theorem c4_satisfiable_read_rejects :
    readableStream.readUint8Array ⟨[[1, 2], [3]], 0, true⟩ 1 =
      .success [1] ⟨[[1, 2], [3]], 1, true⟩ ∧
    bufferedRemaining ⟨[[1, 2], [3]], 1, true⟩ = 2 ∧
    readableStream.readUint8Array ⟨[[1, 2], [3]], 1, true⟩ 2 = .ended := by
  decide

/-- C9, counterexample: reading the single chunk [0xFF, 0xFE, 0x43] through
readSignedInteger(3) with big-endian semantics yields -8388163, not the
1113983 the claim states: readUnsignedInt gives 0xFFFE43 and the
sign-magnitude decode clears the sign bit 0x800000 and negates. -/
theorem c9_decode_value_wrong :
    readableStream.readSignedInteger ⟨[[255, 254, 67]], 0, false⟩ 3 =
      .success (-8388163) ⟨[], 0, false⟩ ∧
    (-8388163 : Int) ≠ 1113983 := by
  decide

/-- C9, amended: enqueueing [0xFF, 0xFE, 0x43] as one chunk,
readUint8Array(3) returns [0xFF, 0xFE, 0x43], and readSignedInteger(3)
with big-endian semantics decodes those bytes to -8388163. -/
theorem c9_amended_decode :
    readableStream.readUint8Array ⟨[[255, 254, 67]], 0, false⟩ 3 =
      .success [255, 254, 67] ⟨[], 0, false⟩ ∧
    readableStream.readSignedInteger ⟨[[255, 254, 67]], 0, false⟩ 3 =
      .success (-8388163) ⟨[], 0, false⟩ := by
  decide

/-- C6: the claim says that a read that leaves the chunk queue empty flips
drained to true and notifies the drain subscribers.  On the code nothing
ever emits the drain event or resets drained: with a persistent drain
listener registered, a chunk [1] delivered and readUint8Array(1) consuming
it, the queue is empty afterwards, yet drained is still false, the
listener is still registered and no drain notification was delivered. -/
theorem c6_drain_never_fires :
    (Sched.runMicro 32 (Sched.issueRead (Sched.pushChunk (Sched.onDrain
        ⟨[], 0, ⟨[], false, false⟩, false, true, [], [], [], [], [], []⟩ 0) [1]) 1)) =
      ⟨[], 0, ⟨[], false, false⟩, false, false, [], [0], [], [], [], [.done [1]]⟩ := by
  decide

/-- C5: when the source closes, every read parked waiting for data is
rejected with StreamEndedError and none is left pending: the close handler
rejects every waiter on the data listener list and clears it.  Afterwards
destroyed is set, and on a destroyed stream any readUint8Array(n) whose n
exceeds the bytes still deliverable from the buffer rejects with
StreamEndedError instead of suspending, and likewise a shift() with no
deliverable byte left.  Chunks delivered by Node data events are nonempty,
hence the nonempty-chunk hypothesis on the shift part. -/
theorem c5_close_liveness :
    ∀ (s : Sched) (w : Nat) (st : readableStream) (n : Nat),
      (w ∈ s.dataWaiters → w < s.tasks.length →
        (s.closeEvt.tasks)[w]? = some (.failed .streamEnded)) ∧
      s.closeEvt.dataWaiters = [] ∧
      s.closeEvt.destroyed = true ∧
      (st.destroyed = true → bufferedRemaining st < n →
        st.readUint8Array n = .ended) ∧
      (st.destroyed = true → (∀ c ∈ st.chunkQueue, c ≠ []) →
        bufferedRemaining st = 0 → st.shift = .ended) := by
  intro s w st n
  refine ⟨?_, rfl, rfl, ?_, ?_⟩
  · intro hmem hlt
    exact getElem?_foldl_set _ _ _ _ (Or.inl hmem) hlt
  · intro hd hrem
    unfold readableStream.readUint8Array
    rw [hd]
    exact readLoop_ended _ _ _ _ _ (by omega) hrem
  · intro hd hne hrem
    obtain ⟨queue, idx, destroyed⟩ := st
    simp only at hd
    subst hd
    unfold bufferedRemaining remainingOf at hrem
    unfold readableStream.shift
    cases queue with
    | nil => simp [evictHead]
    | cons c rest =>
      simp only at hrem
      by_cases hev : c.length ≤ idx
      · have hsum : (rest.map List.length).sum = 0 := by omega
        have hrest : rest = [] := by
          cases rest with
          | nil => rfl
          | cons d rest2 =>
            have hd2 : d ≠ [] := hne d (by simp)
            have : 0 < d.length := List.length_pos.mpr hd2
            simp only [List.map_cons, List.sum_cons] at hsum
            omega
        subst hrest
        simp [evictHead, hev]
      · exact absurd hrem (by omega)

/-- C5 witness: a concrete state with one task parked on the data event, a
closed empty stream, and n = 1. -/
theorem c5_witness :
    ((Sched.closeEvt ⟨[], 0, ⟨[], false, false⟩, false, false, [0], [], [], [], [],
        [.consume [] 1]⟩).tasks)[0]? = some (.failed .streamEnded) ∧
    readableStream.readUint8Array ⟨[], 0, true⟩ 1 = .ended ∧
    readableStream.shift ⟨[], 0, true⟩ = .ended :=
  ⟨(c5_close_liveness ⟨[], 0, ⟨[], false, false⟩, false, false, [0], [], [], [], [],
        [.consume [] 1]⟩ 0 ⟨[], 0, true⟩ 1).1 (by decide) (by decide),
   (c5_close_liveness ⟨[], 0, ⟨[], false, false⟩, false, false, [0], [], [], [], [],
        [.consume [] 1]⟩ 0 ⟨[], 0, true⟩ 1).2.2.2.1 rfl (by decide),
   (c5_close_liveness ⟨[], 0, ⟨[], false, false⟩, false, false, [0], [], [], [], [],
        [.consume [] 1]⟩ 0 ⟨[], 0, true⟩ 1).2.2.2.2 rfl (by decide) (by decide)⟩

/-- C7: on both the streaming reader and the in-memory reader, the
backwards read primitive produces exactly the reverse of the bytes the
forward primitive produces from the same state, with the same state
update, and the same park or rejection outcome otherwise. -/
theorem c7_backwards_is_reverse :
    ∀ (st : readableStream) (rb : readableBuffer) (bytes : Nat),
      st.readUint8ArrayBackwards bytes =
        (match st.readUint8Array bytes with
         | .success b st2 => .success b.reverse st2
         | .park => .park
         | .ended => .ended) ∧
      rb.readUint8ArrayBackwards bytes =
        (match rb.readUint8Array bytes with
         | .ok p => .ok (p.1.reverse, p.2)
         | .error e => .error e) := by
  intro st rb bytes
  constructor
  · rfl
  · unfold readableBuffer.readUint8ArrayBackwards
    cases rb.readUint8Array bytes <;> rfl

/-- C8: on the fixed-size writable buffer, push, writeUint8Array and
writeArray raise OutOfCapacity exactly when the write would push the used
length beyond the capacity, and a raising call leaves the state untouched,
while a non-raising call appends the bytes.  The hypothesis is the class
invariant that the used length never exceeds the capacity. -/
theorem c8_capacity_guard :
    ∀ (st : writableBufferFixedSize) (v : Nat) (bs : List Nat),
      st.data.length ≤ st.maxLength →
      (((st.push v).2 = some .outOfCapacity ↔ st.maxLength < st.data.length + 1) ∧
       ((st.push v).2 = some .outOfCapacity → (st.push v).1 = st) ∧
       ((st.push v).2 = none → (st.push v).1.data = st.data ++ [v]) ∧
       ((st.writeUint8Array bs).2 = some .outOfCapacity ↔
          st.maxLength < st.data.length + bs.length) ∧
       ((st.writeUint8Array bs).2 = some .outOfCapacity → (st.writeUint8Array bs).1 = st) ∧
       ((st.writeUint8Array bs).2 = none →
          (st.writeUint8Array bs).1.data = st.data ++ bs) ∧
       ((st.writeArray bs).2 = some .outOfCapacity ↔
          st.maxLength < st.data.length + bs.length) ∧
       ((st.writeArray bs).2 = some .outOfCapacity → (st.writeArray bs).1 = st) ∧
       ((st.writeArray bs).2 = none → (st.writeArray bs).1.data = st.data ++ bs)) := by
  intro st v bs hinv
  unfold writableBufferFixedSize.push writableBufferFixedSize.writeUint8Array
    writableBufferFixedSize.writeArray
  split_ifs with h1 h2 <;>
    refine ⟨?_, ?_, ?_, ?_, ?_, ?_, ?_, ?_, ?_⟩ <;> simp <;> omega

/-- C8 witness: capacity 2 with one byte used; push fits, a two-byte write
does not. -/
theorem c8_capacity_guard_witness :
    ((((⟨2, [9]⟩ : writableBufferFixedSize).push 7).2 = some .outOfCapacity ↔ 2 < 1 + 1) ∧
     ((((⟨2, [9]⟩ : writableBufferFixedSize).push 7).2 = some .outOfCapacity) →
        ((⟨2, [9]⟩ : writableBufferFixedSize).push 7).1 = ⟨2, [9]⟩) ∧
     ((((⟨2, [9]⟩ : writableBufferFixedSize).push 7).2 = none) →
        ((⟨2, [9]⟩ : writableBufferFixedSize).push 7).1.data = [9] ++ [7]) ∧
     ((((⟨2, [9]⟩ : writableBufferFixedSize).writeUint8Array [1, 2]).2 = some .outOfCapacity) ↔
        2 < 1 + 2) ∧
     ((((⟨2, [9]⟩ : writableBufferFixedSize).writeUint8Array [1, 2]).2 = some .outOfCapacity) →
        ((⟨2, [9]⟩ : writableBufferFixedSize).writeUint8Array [1, 2]).1 = ⟨2, [9]⟩) ∧
     ((((⟨2, [9]⟩ : writableBufferFixedSize).writeUint8Array [1, 2]).2 = none) →
        ((⟨2, [9]⟩ : writableBufferFixedSize).writeUint8Array [1, 2]).1.data = [9] ++ [1, 2]) ∧
     ((((⟨2, [9]⟩ : writableBufferFixedSize).writeArray [1, 2]).2 = some .outOfCapacity) ↔
        2 < 1 + 2) ∧
     ((((⟨2, [9]⟩ : writableBufferFixedSize).writeArray [1, 2]).2 = some .outOfCapacity) →
        ((⟨2, [9]⟩ : writableBufferFixedSize).writeArray [1, 2]).1 = ⟨2, [9]⟩) ∧
     ((((⟨2, [9]⟩ : writableBufferFixedSize).writeArray [1, 2]).2 = none) →
        ((⟨2, [9]⟩ : writableBufferFixedSize).writeArray [1, 2]).1.data = [9] ++ [1, 2])) :=
  c8_capacity_guard ⟨2, [9]⟩ 7 [1, 2] (by decide)

/-- Extracting a byte with a shifted 0xFF mask equals shifting down and
taking the low byte. -/
theorem mask_extract (v c : Nat) : ((255 <<< c) &&& v) >>> c = v / 2 ^ c % 256 := by
  apply Nat.eq_of_testBit_eq
  intro i
  rw [← Nat.shiftRight_eq_div_pow]
  rw [Nat.testBit_shiftRight]
  rw [Nat.testBit_and, Nat.testBit_shiftLeft]
  rw [show (256 : Nat) = 2 ^ 8 by norm_num]
  rw [Nat.testBit_mod_two_pow]
  rw [Nat.testBit_shiftRight]
  rw [show c + i - c = i by omega]
  rw [show (255 : Nat) = 2 ^ 8 - 1 by norm_num, Nat.testBit_two_pow_sub_one]
  rw [decide_eq_true (show c + i ≥ c by omega)]
  rw [Bool.true_and]

/-- Under disjointness, bitwise or is addition: when a fits below the
shift, a ||| b <<< k = a + b * 2 ^ k. -/
theorem lor_shift_add (a b k : Nat) (h : a < 2 ^ k) :
    a ||| b <<< k = a + b * 2 ^ k := by
  apply Nat.eq_of_testBit_eq
  intro i
  rcases Nat.lt_or_ge i k with hik | hik
  · have hmod : (a + b * 2 ^ k) % 2 ^ k = a := by
      rw [Nat.add_mul_mod_self_right]
      exact Nat.mod_eq_of_lt h
    have hbit : (a + b * 2 ^ k).testBit i = ((a + b * 2 ^ k) % 2 ^ k).testBit i := by
      rw [Nat.testBit_mod_two_pow]
      simp [hik]
    rw [hbit, hmod, Nat.testBit_or, Nat.testBit_shiftLeft]
    have : ¬(i ≥ k) := by omega
    simp [this]
  · have hdiv : (a + b * 2 ^ k) / 2 ^ k = b := by
      rw [Nat.add_mul_div_right _ _ (Nat.pos_pow_of_pos k (by norm_num)),
        Nat.div_eq_of_lt h, Nat.zero_add]
    have hbit : (a + b * 2 ^ k).testBit i = b.testBit (i - k) := by
      have hi : i = k + (i - k) := by omega
      rw [hi, ← Nat.testBit_shiftRight, Nat.shiftRight_eq_div_pow, hdiv]
      congr 1
      omega
    rw [hbit, Nat.testBit_or, Nat.testBit_shiftLeft]
    have ha : a.testBit i = false :=
      Nat.testBit_lt_two_pow
        (lt_of_lt_of_le h (Nat.pow_le_pow_right (by norm_num) hik))
    simp [ha, hik]

/-- The value folded back by readUnsignedInt from the little-endian digits
of v starting at position k: each step absorbs one base-256 digit. -/
theorem fold_digits_spec (v : Nat) :
    ∀ (count k acc : Nat), k + count ≤ 4 → acc < 2 ^ (8 * k) →
      readUnsignedIntFold
          ((List.range count).map (fun j => v / 2 ^ (8 * (k + j)) % 256)) k acc =
        acc + v / 2 ^ (8 * k) % 2 ^ (8 * count) * 2 ^ (8 * k) := by
  intro count
  induction count with
  | zero =>
    intro k acc _ _
    simp [readUnsignedIntFold, Nat.mod_one]
  | succ count ih =>
    intro k acc hk hacc
    rw [List.range_succ_eq_map, List.map_cons, List.map_map, readUnsignedIntFold]
    have hsh : k * 8 % 32 = 8 * k := by omega
    have hdig : v / 2 ^ (8 * (k + 0)) % 256 < 2 ^ (8 * k + 8) := by
      have h256 : v / 2 ^ (8 * (k + 0)) % 256 < 256 := Nat.mod_lt _ (by norm_num)
      calc v / 2 ^ (8 * (k + 0)) % 256 < 256 := h256
        _ = 2 ^ 8 := by norm_num
        _ ≤ 2 ^ (8 * k + 8) := Nat.pow_le_pow_right (by norm_num) (by omega)
    have hor : acc ||| (v / 2 ^ (8 * (k + 0)) % 256) <<< (8 * k) =
        acc + v / 2 ^ (8 * (k + 0)) % 256 * 2 ^ (8 * k) :=
      lor_shift_add _ _ _ hacc
    rw [hsh, hor]
    have hcomp : ((fun j => v / 2 ^ (8 * (k + j)) % 256) ∘ Nat.succ) =
        (fun j => v / 2 ^ (8 * (k + 1 + j)) % 256) := by
      funext j
      have : k + (j + 1) = k + 1 + j := by omega
      simp [Function.comp, Nat.succ_eq_add_one, this]
    have hacc2 : acc + v / 2 ^ (8 * (k + 0)) % 256 * 2 ^ (8 * k) < 2 ^ (8 * (k + 1)) := by
      have h256 : v / 2 ^ (8 * (k + 0)) % 256 < 256 := Nat.mod_lt _ (by norm_num)
      have hm : v / 2 ^ (8 * (k + 0)) % 256 * 2 ^ (8 * k) ≤ 255 * 2 ^ (8 * k) :=
        Nat.mul_le_mul_right _ (by omega)
      have hpow : 2 ^ (8 * (k + 1)) = 256 * 2 ^ (8 * k) := by
        rw [show 8 * (k + 1) = 8 + 8 * k by ring, Nat.pow_add]
      omega
    rw [hcomp, ih (k + 1) _ (by omega) hacc2]
    have hsplit : v / 2 ^ (8 * k) % 2 ^ (8 * (count + 1)) =
        v / 2 ^ (8 * k) % 256 + 256 * (v / 2 ^ (8 * k) / 256 % 2 ^ (8 * count)) := by
      rw [show (2 : Nat) ^ (8 * (count + 1)) = 256 * 2 ^ (8 * count) by
            rw [show 8 * (count + 1) = 8 + 8 * count by ring, Nat.pow_add]]
      exact Nat.mod_mul
    have hdd : v / 2 ^ (8 * (k + 1)) = v / 2 ^ (8 * k) / 256 := by
      rw [Nat.div_div_eq_div_mul,
        show (2 : Nat) ^ (8 * k) * 256 = 2 ^ (8 * (k + 1)) by
          rw [show 8 * (k + 1) = 8 * k + 8 by ring, Nat.pow_add]]
    have hpow1 : (2 : Nat) ^ (8 * (k + 1)) = 2 ^ (8 * k) * 256 := by
      rw [show 8 * (k + 1) = 8 * k + 8 by ring, Nat.pow_add]
    rw [hdd, hsplit, hpow1]
    ring_nf

/-- The digit loop of writeUnsignedInt produces the little-endian base-256
digits, as long as the digits stay within the 32-bit register. -/
theorem writeUnsignedIntLoop_digits (v : Nat) :
    ∀ (count k : Nat), count + k ≤ 4 →
      writeUnsignedIntLoop v count ((255 <<< (8 * k)) % 2 ^ 32) (8 * k) =
        (List.range count).map (fun j => v / 2 ^ (8 * (k + j)) % 256) := by
  intro count
  induction count with
  | zero =>
    intro k _
    simp [writeUnsignedIntLoop]
  | succ count ih =>
    intro k hk
    have hmlt : 255 <<< (8 * k) < 2 ^ 32 := by
      rw [Nat.shiftLeft_eq]
      calc 255 * 2 ^ (8 * k) ≤ 255 * 2 ^ 24 :=
            Nat.mul_le_mul_left _ (Nat.pow_le_pow_right (by norm_num) (by omega))
        _ < 2 ^ 32 := by norm_num
    have hshift : 8 * k % 32 = 8 * k := Nat.mod_eq_of_lt (by omega)
    rw [writeUnsignedIntLoop, Nat.mod_eq_of_lt hmlt, hshift, mask_extract]
    have hmask : (255 <<< (8 * k)) <<< 8 % 2 ^ 32 = (255 <<< (8 * (k + 1))) % 2 ^ 32 := by
      rw [← Nat.shiftLeft_add, show 8 * k + 8 = 8 * (k + 1) by ring]
    have hnext : 8 * k + 8 = 8 * (k + 1) := by ring
    rw [hmask, hnext, ih (k + 1) (by omega)]
    rw [List.range_succ_eq_map, List.map_cons, List.map_map]
    have harg : ((fun j => v / 2 ^ (8 * (k + j)) % 256) ∘ Nat.succ) =
        (fun j => v / 2 ^ (8 * (k + 1 + j)) % 256) := by
      funext j
      have : k + (j + 1) = k + 1 + j := by omega
      simp [Function.comp, Nat.succ_eq_add_one, this]
    rw [harg]
    simp

/-- Writing a short nonempty array into a fresh default-size writableBuffer
fills the first chunk with exactly those bytes. -/
theorem writeArray_fresh (lst : List Nat) (h1 : lst ≠ []) (h2 : lst.length ≤ 2000) :
    (writableBuffer.empty 2000).writeArray lst = ⟨2000, [lst]⟩ := by
  obtain ⟨m, hm⟩ : ∃ m, lst.length = m + 1 := by
    cases lst with
    | nil => exact absurd rfl h1
    | cons a l => exact ⟨l.length, rfl⟩
  unfold writableBuffer.writeArray writableBuffer.empty
  rw [hm, writeArrayLoop]
  rw [if_neg (by omega : ¬lst.length = 0)]
  simp only [List.headD_cons, List.length_nil]
  rw [if_neg (by omega : ¬(0 : Nat) = 2000)]
  simp only [List.headD_cons, List.length_nil, Nat.sub_zero, List.tail_cons, List.nil_append]
  rw [Nat.min_eq_left h2, List.take_length, List.drop_length, writeArrayLoop]
  simp

/-- readableBuffer.readUnsignedInt over a buffer holding exactly the
requested number of bytes: the read succeeds and decodes the whole buffer,
reversed first when the instance is little endian. -/
theorem readUnsignedInt_exact (stored : List Nat) (isLe : Bool) (bytes : Nat)
    (hlen : stored.length = bytes) :
    readableBuffer.readUnsignedInt ⟨stored, 0, isLe⟩ bytes =
      .ok (decodeUnsignedInt (if isLe then stored.reverse else stored),
           ⟨stored, bytes, isLe⟩) := by
  unfold readableBuffer.readUnsignedInt readableBuffer.readEndian
    readableBuffer.readUint8ArrayBackwards readableBuffer.readUint8Array
  subst hlen
  cases isLe <;> simp [Except.map, List.take_length]

/-- C10: writing v with writeUnsignedInt(v, bytes) into an empty growable
writable buffer and reading the stored bytes back with
readableBuffer.readUnsignedInt(bytes), with the same isLe setting on both
sides, returns v, for 1 ≤ bytes ≤ 4 and 0 ≤ v < 2 ^ (8 * bytes). -/
theorem c10_unsigned_roundtrip (v bytes : Nat) (isLe : Bool)
    (h1 : 1 ≤ bytes) (h2 : bytes ≤ 4) (hv : v < 2 ^ (8 * bytes)) :
    readableBuffer.readUnsignedInt
        ⟨(writableBuffer.writeUnsignedInt isLe (writableBuffer.empty 2000) v bytes).buffer,
         0, isLe⟩ bytes =
      .ok (v,
        ⟨(writableBuffer.writeUnsignedInt isLe (writableBuffer.empty 2000) v bytes).buffer,
         bytes, isLe⟩) := by
  have hdig : writeUnsignedIntLoop v bytes 255 0 =
      (List.range bytes).map (fun j => v / 2 ^ (8 * j) % 256) := by
    have h0 := writeUnsignedIntLoop_digits v bytes 0 (by omega)
    simp only [Nat.mul_zero, Nat.shiftLeft_zero, Nat.zero_add] at h0
    rw [Nat.mod_eq_of_lt (by norm_num : (255 : Nat) < 2 ^ 32)] at h0
    exact h0
  have hlen : ((List.range bytes).map (fun j => v / 2 ^ (8 * j) % 256)).length = bytes := by
    simp
  have hne : (List.range bytes).map (fun j => v / 2 ^ (8 * j) % 256) ≠ [] := by
    intro hcon
    have := congrArg List.length hcon
    rw [hlen] at this
    simp at this
    omega
  have hfold : readUnsignedIntFold
      ((List.range bytes).map (fun j => v / 2 ^ (8 * j) % 256)) 0 0 % 2 ^ 32 = v := by
    have hs := fold_digits_spec v bytes 0 0 (by omega) (by simp)
    have harg : ((List.range bytes).map (fun j => v / 2 ^ (8 * (0 + j)) % 256)) =
        ((List.range bytes).map (fun j => v / 2 ^ (8 * j) % 256)) := by
      congr 1
      funext j
      simp
    rw [harg] at hs
    rw [hs]
    simp only [Nat.mul_zero, pow_zero, Nat.div_one, Nat.mul_one, Nat.zero_add]
    rw [Nat.mod_eq_of_lt hv]
    exact Nat.mod_eq_of_lt (lt_of_lt_of_le hv (Nat.pow_le_pow_right (by norm_num) (by omega)))
  have hdecode : decodeUnsignedInt
      ((List.range bytes).map (fun j => v / 2 ^ (8 * j) % 256)).reverse = v := by
    unfold decodeUnsignedInt
    rw [List.reverse_reverse]
    exact hfold
  have hbufval : ∀ l : List Nat, (writableBuffer.mk 2000 [l]).buffer = l := by
    intro l
    simp [writableBuffer.buffer]
  cases isLe with
  | false =>
    have hBE : writableBuffer.writeUnsignedInt false (writableBuffer.empty 2000) v bytes =
        (writableBuffer.empty 2000).writeArray (writeUnsignedIntLoop v bytes 255 0).reverse :=
      rfl
    rw [hBE, hdig, writeArray_fresh _ (by simpa using hne) (by rw [List.length_reverse, hlen]; omega),
      hbufval]
    rw [readUnsignedInt_exact _ _ _ (by rw [List.length_reverse, hlen])]
    simp [hdecode]
  | true =>
    have hLE : writableBuffer.writeUnsignedInt true (writableBuffer.empty 2000) v bytes =
        (writableBuffer.empty 2000).writeArray (writeUnsignedIntLoop v bytes 255 0) :=
      rfl
    rw [hLE, hdig, writeArray_fresh _ hne (by rw [hlen]; omega), hbufval]
    rw [readUnsignedInt_exact _ _ _ hlen]
    simp [hdecode]

/-- C10 witness: v = 258, bytes = 2, big endian. -/
theorem c10_unsigned_roundtrip_witness :
    (1 ≤ 2 ∧ 2 ≤ 4 ∧ 258 < 2 ^ (8 * 2)) ∧
    readableBuffer.readUnsignedInt
        ⟨(writableBuffer.writeUnsignedInt false (writableBuffer.empty 2000) 258 2).buffer,
         0, false⟩ 2 =
      .ok (258,
        ⟨(writableBuffer.writeUnsignedInt false (writableBuffer.empty 2000) 258 2).buffer,
         2, false⟩) :=
  ⟨⟨by norm_num, by norm_num, by norm_num⟩,
   c10_unsigned_roundtrip 258 2 false (by norm_num) (by norm_num) (by norm_num)⟩

end ByteUtils
